import Mathlib

/-!
The renew command of the cert-manager CLI, package `cmd/ctl/pkg/renew`.

A shallow embedding of `renew.go`.  The command is sequential Go code that talks to
the certificate store through a client and writes progress text to `o.Out`.  Both effects
are made explicit: every function that performs them takes a `World` (the requests issued
so far and the text written so far) and returns the new one.  A Go function returning
`error` returns a `Result`, which also has a case for a runtime panic.
-/

namespace Renew

/-! ## Data model -/

/-- A `cmapi.CertificateCondition`: `Type` and `Status` are string types in Go. -/
structure CertificateCondition where
  Type_ : String
  Status : String
  Reason : String
  Message : String
  deriving DecidableEq, Repr

/-- The constant `cmapi.CertificateConditionReady`. -/
def CertificateConditionReady : String := "Ready"

/-- The constant `cmmeta.ConditionTrue`. -/
def ConditionTrue : String := "True"

/-- The constant `cmmeta.ConditionFalse`. -/
def ConditionFalse : String := "False"

/-- The constant `cmmeta.ConditionUnknown`. -/
def ConditionUnknown : String := "Unknown"

/-- The part of `cmapi.CertificateStatus` the command reads. -/
structure CertificateStatus where
  Conditions : List CertificateCondition
  deriving DecidableEq, Repr

/-- The part of `cmapi.Certificate` the command reads. -/
structure Certificate where
  Namespace : String
  Name : String
  Status : CertificateStatus
  deriving DecidableEq, Repr

/-- An argument of a `fmt.Errorf` call. -/
inductive Arg where
  | str (s : String)
  | cond (c : CertificateCondition)
  deriving DecidableEq, Repr

/-- A Go `error` value, by the call that built it. -/
inductive Error where
  /-- The call `errors.New(text)`. -/
  | New (text : String)
  /-- The call `fmt.Errorf(format, args...)`; the format has no `%w`, so nothing is wrapped. -/
  | Errorf (format : String) (args : List Arg)
  /-- An error produced by the certificate store client or by the local configuration. -/
  | api (detail : String)
  /-- The value `wait.ErrWaitTimeout`. -/
  | ErrWaitTimeout
  deriving DecidableEq, Repr

/-- What a Go function of result type `error` does: return nil, return an error, or panic. -/
inductive Result where
  | nil
  | err (e : Error)
  | panic (msg : String)
  deriving DecidableEq, Repr

/-- The verbs of the generated `CertificateInterface` of the clientset. -/
inductive Verb where
  | Create | Update | UpdateStatus | Delete | DeleteCollection | Get | List | Watch | Patch
  deriving DecidableEq, Repr

/-- One request to the certificate store: `target` is the object name, or the label selector
of a `List`. -/
structure Request where
  verb : Verb
  ns : String
  target : String
  deriving DecidableEq, Repr

/-- Whether a request writes to the certificate store. -/
def Request.isMutating (r : Request) : Bool :=
  match r.verb with
  | .Get | .List | .Watch => false
  | _ => true

/-- The observable effects so far: requests sent to the certificate store, oldest first, and
the pieces of text written to `o.Out`, oldest first. -/
structure World where
  requests : List Request
  Out : List String
  deriving DecidableEq, Repr

/-- The call `fmt.Fprintf(o.Out, ...)` with its text already formatted. -/
def World.Fprintf (w : World) (text : String) : World :=
  { w with Out := w.Out ++ [text] }

/-- The certificate store behind `cmClient.CertmanagerV1alpha2().Certificates(ns)`.  The store
is owned by the controller and changes on its own, so an answer depends on when the request
is made: the first argument is the number of requests issued before this one. -/
structure Clientset where
  get : Nat → String → String → Except Error Certificate
  list : Nat → String → String → Except Error (List Certificate)

/-- The call `cmClient.CertmanagerV1alpha2().Certificates(ns).Get(ctx, name, GetOptions)`. -/
def Clientset.CertificatesGet (cmClient : Clientset) (ns name : String) (w : World) :
    Except Error Certificate × World :=
  (cmClient.get w.requests.length ns name,
    { w with requests := w.requests ++ [⟨Verb.Get, ns, name⟩] })

/-- The call `cmClient.CertmanagerV1alpha2().Certificates(ns).List(ctx, ListOptions)` with the
given label selector. -/
def Clientset.CertificatesList (cmClient : Clientset) (ns selector : String) (w : World) :
    Except Error (List Certificate) × World :=
  (cmClient.list w.requests.length ns selector,
    { w with requests := w.requests ++ [⟨Verb.List, ns, selector⟩] })

/-- The `cmdutil.Factory` of the command: the local kubeconfig, which gives the ambient
namespace and the client for the cluster (`ToRESTConfig` followed by `cmclient.NewForConfig`). -/
structure Factory where
  Namespace : Except Error String
  ToRESTConfig : Except Error Unit
  NewForConfig : Except Error Clientset

/-- The struct `Options`; its `IOStreams.Out` is the `Out` of the `World`. -/
structure Options where
  Namespace : String
  LabelSelector : String
  deriving DecidableEq, Repr

/-- A `time.Duration`, in nanoseconds. -/
abbrev Duration := Nat

/-- The package variable `pollInterval = time.Second`. -/
def pollInterval : Duration := 1000000000

/-- The package variable `pollTimeout = time.Minute`. -/
def pollTimeout : Duration := 60 * 1000000000

/-! ## Helpers of `pkg/api/util` -/

/-- Modelled from the spec: `apiutil.GetCertificateCondition` (package `pkg/api/util`, not among
the sources) "looks up the condition of type Ready", which may be absent.  The Go result is a
pointer to the first condition of the given type, nil (`none`) when there is none. -/
def GetCertificateCondition (crt : Certificate) (conditionType : String) :
    Option CertificateCondition :=
  crt.Status.Conditions.find? (fun cond => cond.Type_ == conditionType)

/-- Modelled from the spec: `apiutil.CertificateHasCondition` (package `pkg/api/util`, not among
the sources) tells whether the certificate has a condition of the type and the status of `c`. -/
def CertificateHasCondition (crt : Certificate) (c : CertificateCondition) : Bool :=
  crt.Status.Conditions.any (fun cond => c.Type_ == cond.Type_ && c.Status == cond.Status)

/-! ## `wait.Poll` -/

/-- The function `wait.Poll(interval, timeout, condition)` of `k8s.io/apimachinery`, an
external library: it runs `condition` again and again and stops at the first run that returns an
error (returned as it is) or true (nil is returned); once the timeout has passed it returns
`wait.ErrWaitTimeout`.  How many runs fit before the timeout is decided by the clock, so their
number is the parameter `budget`. -/
def Poll (budget : Nat) (condition : World → (Bool × Option Error) × World) (w : World) :
    Option Error × World :=
  match budget with
  | 0 => (some Error.ErrWaitTimeout, w)
  | n + 1 =>
    match condition w with
    | ((_, some e), w1) => (some e, w1)
    | ((true, none), w1) => (none, w1)
    | ((false, none), w1) => Poll n condition w1

/-- Modelled from the spec: the schedule of the poller behind `wait.Poll` (`k8s.io/apimachinery`,
not among the sources), the Polling state of section 4.4: sleep `interval`, read, and retry until
the elapsed time has reached `timeout`.  On a clock on which a read takes no time the reads fall
at `interval`, `2 * interval`, ... up to `timeout`, which makes `timeout / interval` of them, and
when the timeout fires `wait.Poll` runs the condition one last time before it returns
`wait.ErrWaitTimeout`.  The interval is positive (`time.NewTicker` accepts no other). -/
def pollerRuns (interval timeout : Duration) : Nat :=
  timeout / interval + 1

/-! ## The command -/

/-- The method `Options.Validate`. -/
def Validate (o : Options) (args : List String) : Option Error :=
  if o.LabelSelector.utf8ByteSize > 0 ∧ args.length > 0 then
    some (Error.New "cannot specify Certificate arguments as well as label selectors")
  else
    none

/-- The method `Options.Complete`. -/
def Complete (f : Factory) (o : Options) : Except Error Options :=
  match f.Namespace with
  | .error e => .error e
  | .ok ns => .ok { o with Namespace := ns }

/-- The condition function handed to `wait.Poll` in `renewCertificate`. -/
def pollCondition (cmClient : Clientset) (crt : Certificate) (w : World) :
    (Bool × Option Error) × World :=
  let w1 := w.Fprintf ("Waiting for Certificate " ++ crt.Name ++ " to renew")
  match cmClient.CertificatesGet crt.Namespace crt.Namespace w1 with
  | (.error e, w2) => ((false, some e), w2)
  | (.ok c, w2) =>
    if CertificateHasCondition c
        { Type_ := CertificateConditionReady, Status := ConditionTrue, Reason := "",
          Message := "" } then
      ((true, none), w2)
    else
      ((false, none), w2)

/-- The method `Options.renewCertificate`.  `sched interval timeout` is the number of runs of
the condition that `wait.Poll` fits in before the timeout. -/
def renewCertificate (sched : Duration → Duration → Nat) (cmClient : Clientset)
    (crt : Certificate) (w : World) : Result × World :=
  match GetCertificateCondition crt CertificateConditionReady with
  | none => (Result.panic "invalid memory address or nil pointer dereference", w)
  | some cond =>
    if cond.Status ≠ ConditionTrue then
      (Result.err (Error.Errorf "Certificate %s not in ready condition: %v"
        [Arg.str crt.Name, Arg.cond cond]), w)
    else
      let w1 := w.Fprintf ("Marking Certificate " ++ crt.Name ++ " for renewal")
      match Poll (sched pollInterval pollTimeout) (pollCondition cmClient crt) w1 with
      | (some _, w2) =>
        (Result.err (Error.Errorf "failed to wait for Certificate %s to become ready"
          [Arg.str crt.Name]), w2)
      | (none, w2) => (Result.nil, w2.Fprintf ("Certificate " ++ crt.Name ++ " is ready"))

/-- The loop `for _, crtName := range args` of `Run`, which appends each fetched
certificate to `crts`. -/
def getEach (cmClient : Clientset) (o : Options) :
    List String → List Certificate → World → Except Error (List Certificate) × World
  | [], crts, w => (.ok crts, w)
  | crtName :: rest, crts, w =>
    match cmClient.CertificatesGet o.Namespace crtName w with
    | (.error e, w1) => (.error e, w1)
    | (.ok crt, w1) => getEach cmClient o rest (crts ++ [crt]) w1

/-- The `if len(o.LabelSelector) > 0 ... else ...` statement of `Run`, which fills `crts`. -/
def resolve (cmClient : Clientset) (o : Options) (args : List String) (w : World) :
    Except Error (List Certificate) × World :=
  if o.LabelSelector.utf8ByteSize > 0 then
    match cmClient.CertificatesList o.Namespace o.LabelSelector w with
    | (.error e, w1) => (.error e, w1)
    | (.ok crtsList, w1) => (.ok crtsList, w1)
  else
    getEach cmClient o args [] w

/-- The loop `for _, crt := range crts` of `Run`. -/
def renewEach (sched : Duration → Duration → Nat) (cmClient : Clientset) :
    List Certificate → World → Result × World
  | [], w => (Result.nil, w)
  | crt :: rest, w =>
    match renewCertificate sched cmClient crt w with
    | (Result.nil, w1) => renewEach sched cmClient rest w1
    | (r, w1) => (r, w1)

/-- The method `Options.Run`. -/
def Run (sched : Duration → Duration → Nat) (f : Factory) (o : Options) (args : List String)
    (w : World) : Result × World :=
  match f.ToRESTConfig with
  | .error e => (Result.err e, w)
  | .ok _ =>
    match f.NewForConfig with
    | .error e => (Result.err e, w)
    | .ok cmClient =>
      match resolve cmClient o args w with
      | (.error e, w1) => (Result.err e, w1)
      | (.ok crts, w1) =>
        if crts.length = 0 then
          (Result.err (Error.New "No resources found"), w1)
        else
          renewEach sched cmClient crts w1

/-- The `Run` function of the cobra command built by `NewCmdRenew`: `Complete`, `Validate` and
`Run` in turn, each under `cmdutil.CheckErr`, which ends the process on an error. -/
def NewCmdRenew (sched : Duration → Duration → Nat) (f : Factory) (o : Options)
    (args : List String) (w : World) : Result × World :=
  match Complete f o with
  | .error e => (Result.err e, w)
  | .ok o1 =>
    match Validate o1 args with
    | some e => (Result.err e, w)
    | none => Run sched f o1 args w

/-! ## Reading the status during the wait -/

/-- The condition the wait looks for: `cmapi.CertificateCondition{Type: Ready, Status: True}`. -/
def readyTrue : CertificateCondition :=
  { Type_ := CertificateConditionReady, Status := ConditionTrue, Reason := "", Message := "" }

/-- The request the condition function of `renewCertificate` sends at each attempt. -/
def pollRequest (crt : Certificate) : Request :=
  ⟨Verb.Get, crt.Namespace, crt.Namespace⟩

/-- The answer of the store to attempt `k` (from 0) of a wait that starts in world `w`. -/
def pollRead (cmClient : Clientset) (crt : Certificate) (w : World) (k : Nat) :
    Except Error Certificate :=
  cmClient.get (w.requests.length + k) crt.Namespace crt.Namespace

/-- Whether a status read succeeded and shows a Ready condition with value True. -/
def observesReady (r : Except Error Certificate) : Bool :=
  match r with
  | .error _ => false
  | .ok c => CertificateHasCondition c readyTrue

/-- Whether a status read ends the wait: it failed, or it shows Ready = True. -/
def decisive (r : Except Error Certificate) : Bool :=
  match r with
  | .error _ => true
  | .ok c => CertificateHasCondition c readyTrue

/-- The request `Certificates(ns).Get(ctx, name, GetOptions)`. -/
def getRequest (ns name : String) : Request :=
  ⟨Verb.Get, ns, name⟩

/-- The request `Certificates(ns).List(ctx, ListOptions)` with a label selector. -/
def listRequest (ns selector : String) : Request :=
  ⟨Verb.List, ns, selector⟩

/-- The text `renewCertificate` writes once the wait has succeeded. -/
def readyLine (name : String) : String :=
  "Certificate " ++ name ++ " is ready"

/-! ## Concrete stores used by the examples -/

/-- A condition of type Ready with the given status. -/
def readyCondition (status : String) : CertificateCondition :=
  { Type_ := CertificateConditionReady, Status := status, Reason := "", Message := "" }

/-- A certificate with the given conditions. -/
def mkCertificate (ns name : String) (conds : List CertificateCondition) : Certificate :=
  { Namespace := ns, Name := name, Status := { Conditions := conds } }

/-- The not-found error of the store for a name. -/
def notFound (name : String) : Error :=
  Error.api ("certificates.cert-manager.io " ++ name ++ " not found")

/-- A store that never changes and holds the given certificates; `List` returns those of the
namespace whatever the selector. -/
def staticStore (crts : List Certificate) : Clientset where
  get := fun _ ns name =>
    match crts.find? (fun c => c.Namespace == ns && c.Name == name) with
    | some c => .ok c
    | none => .error (notFound name)
  list := fun _ ns _ => .ok (crts.filter (fun c => c.Namespace == ns))

/-- A factory whose configuration loads and whose client reaches the given store. -/
def factoryOf (ns : String) (cmClient : Clientset) : Factory where
  Namespace := .ok ns
  ToRESTConfig := .ok ()
  NewForConfig := .ok cmClient

/-- A store in which every certificate exists, with a Ready condition that is False for the
requests numbered below `n` and True from request `n` on. -/
def readyFrom (n : Nat) : Clientset where
  get := fun t ns name =>
    .ok (mkCertificate ns name [readyCondition (if t < n then ConditionFalse else ConditionTrue)])
  list := fun _ _ _ => .ok []

/-- A store whose label query returns "cert-b" (Ready) and then "cert-c" (not Ready), and in
which every read by name finds a Ready certificate. -/
def labelStore : Clientset where
  get := fun _ ns name => .ok (mkCertificate ns name [readyCondition ConditionTrue])
  list := fun _ ns _ =>
    .ok [mkCertificate ns "cert-b" [readyCondition ConditionTrue],
         mkCertificate ns "cert-c" [readyCondition ConditionFalse]]

/-- A store in which every certificate exists and none is ever Ready: each read succeeds and
shows Ready = False. -/
def neverReady : Clientset where
  get := fun _ ns name => .ok (mkCertificate ns name [readyCondition ConditionFalse])
  list := fun _ _ _ => .ok []

/-- The certificate "cert-a" of namespace "default", Ready. -/
def certA : Certificate :=
  mkCertificate "default" "cert-a" [readyCondition ConditionTrue]

/-- A certificate of namespace "default" that is itself named "default", Ready. -/
def certDefault : Certificate :=
  mkCertificate "default" "default" [readyCondition ConditionTrue]

/-- The text of the error `renewCertificate` returns when the wait has failed. -/
def waitFailed (name : String) : Error :=
  Error.Errorf "failed to wait for Certificate %s to become ready" [Arg.str name]

/-- The world before the command has done anything. -/
def World.start : World := { requests := [], Out := [] }

/-! ## Basic facts -/

theorem utf8ByteSize_go_pos (c : Char) (cs : List Char) :
    0 < String.utf8ByteSize.go (c :: cs) := by
  have h := Char.utf8Size_pos c
  simp only [String.utf8ByteSize.go]
  omega

theorem utf8ByteSize_pos_iff (s : String) : s.utf8ByteSize > 0 ↔ s ≠ "" := by
  cases s with
  | mk cs =>
    cases cs with
    | nil => simp [String.utf8ByteSize, String.utf8ByteSize.go]
    | cons c cs =>
      constructor
      · intro _ h
        have h2 := congrArg String.data h
        simp at h2
      · intro _
        exact utf8ByteSize_go_pos c cs

theorem length_pos_iff_ne_nil {α : Type} (l : List α) : l.length > 0 ↔ l ≠ [] := by
  cases l <;> simp

theorem find_unique (t : String) (l : List CertificateCondition) (c : CertificateCondition)
    (hc : c ∈ l) (hty : c.Type_ = t) (huniq : ∀ d ∈ l, d.Type_ = t → d = c) :
    l.find? (fun d => d.Type_ == t) = some c := by
  induction l with
  | nil => simp at hc
  | cons a l ih =>
    by_cases ha : a.Type_ = t
    · have hac : a = c := huniq a (List.mem_cons_self a l) ha
      subst hac
      have hb : (a.Type_ == t) = true := by simp [ha]
      simp only [List.find?, hb]
    · have hcl : c ∈ l := by
        rcases List.mem_cons.mp hc with h | h
        · exact absurd (h ▸ hty) ha
        · exact h
      have ih2 := ih hcl (fun d hd => huniq d (List.mem_cons_of_mem a hd))
      have hb : (a.Type_ == t) = false := by simp [ha]
      simp only [List.find?, hb, ih2]

/-! ## The claims -/

/-- C1: for every certificate whose status holds a Ready condition `c` with a value other than
True (the conditions being named, `c` is the only one of type Ready), `renewCertificate` returns
the error built from the name of the certificate and `c`, and the world is unchanged: no progress
text was written and no request, read or mutating, was sent to the certificate store. -/
theorem renewCertificate_not_ready (sched : Duration → Duration → Nat) (cmClient : Clientset)
    (crt : Certificate) (c : CertificateCondition) (w : World)
    (hc : c ∈ crt.Status.Conditions) (hty : c.Type_ = CertificateConditionReady)
    (hst : c.Status ≠ ConditionTrue)
    (huniq : ∀ d ∈ crt.Status.Conditions, d.Type_ = CertificateConditionReady → d = c) :
    renewCertificate sched cmClient crt w =
      (Result.err (Error.Errorf "Certificate %s not in ready condition: %v"
        [Arg.str crt.Name, Arg.cond c]), w) := by
  have hfind : GetCertificateCondition crt CertificateConditionReady = some c :=
    find_unique CertificateConditionReady crt.Status.Conditions c hc hty huniq
  simp [renewCertificate, hfind, hst]

/-- Witness of C1: a certificate "cert-c" whose Ready condition is False, and the same for a
Ready condition that is Unknown. -/
theorem renewCertificate_not_ready_witness :
    renewCertificate (fun _ _ => 60) (staticStore [])
        (mkCertificate "default" "cert-c" [readyCondition ConditionFalse]) World.start =
      (Result.err (Error.Errorf "Certificate %s not in ready condition: %v"
        [Arg.str "cert-c", Arg.cond (readyCondition ConditionFalse)]), World.start) ∧
    renewCertificate (fun _ _ => 60) (staticStore [])
        (mkCertificate "default" "cert-c" [readyCondition ConditionUnknown]) World.start =
      (Result.err (Error.Errorf "Certificate %s not in ready condition: %v"
        [Arg.str "cert-c", Arg.cond (readyCondition ConditionUnknown)]), World.start) :=
  ⟨renewCertificate_not_ready (fun _ _ => 60) (staticStore [])
    (mkCertificate "default" "cert-c" [readyCondition ConditionFalse])
    (readyCondition ConditionFalse) World.start (by decide) (by decide) (by decide) (by decide),
   renewCertificate_not_ready (fun _ _ => 60) (staticStore [])
    (mkCertificate "default" "cert-c" [readyCondition ConditionUnknown])
    (readyCondition ConditionUnknown) World.start (by decide) (by decide) (by decide)
    (by decide)⟩

/-- C2: `Validate` returns an error exactly when the label selector is non-empty and at least
one positional name is given, and nil in every other case.  It is a function of the options and
the arguments alone; and when the command stops at this error the world is unchanged: no
request was sent and nothing was written. -/
theorem Validate_iff (o : Options) (args : List String) :
    (Validate o args =
        some (Error.New "cannot specify Certificate arguments as well as label selectors") ↔
      (o.LabelSelector ≠ "" ∧ args ≠ [])) ∧
    (Validate o args = none ↔ ¬ (o.LabelSelector ≠ "" ∧ args ≠ [])) ∧
    (∀ (sched : Duration → Duration → Nat) (f : Factory) (w : World),
      (o.LabelSelector ≠ "" ∧ args ≠ []) → (NewCmdRenew sched f o args w).2 = w) := by
  have hiff : (o.LabelSelector.utf8ByteSize > 0 ∧ args.length > 0) ↔
      (o.LabelSelector ≠ "" ∧ args ≠ []) := by
    rw [utf8ByteSize_pos_iff, length_pos_iff_ne_nil]
  refine ⟨?_, ?_, ?_⟩
  · unfold Validate
    by_cases h : o.LabelSelector.utf8ByteSize > 0 ∧ args.length > 0
    · simp only [if_pos h, true_iff]
      exact hiff.mp h
    · rw [if_neg h]
      constructor
      · intro h2
        cases h2
      · intro h2
        exact absurd (hiff.mpr h2) h
  · unfold Validate
    by_cases h : o.LabelSelector.utf8ByteSize > 0 ∧ args.length > 0
    · rw [if_pos h]
      constructor
      · intro h2
        cases h2
      · intro h2
        exact absurd (hiff.mp h) h2
    · simp only [if_neg h, true_iff]
      exact fun h2 => h (hiff.mpr h2)
  · intro sched f w h
    unfold NewCmdRenew Complete
    cases hns : f.Namespace with
    | error e => rfl
    | ok ns =>
      have hv : o.LabelSelector.utf8ByteSize > 0 ∧ args.length > 0 := hiff.mpr h
      simp only [Validate, if_pos hv]

/-- Witness of C2: the selector "app=web" together with the name "cert-a" is rejected before
any request, against a store that holds the certificate. -/
theorem Validate_iff_witness :
    Validate ⟨"default", "app=web"⟩ ["cert-a"] =
        some (Error.New "cannot specify Certificate arguments as well as label selectors") ∧
    Validate ⟨"default", "app=web"⟩ [] = none ∧
    Validate ⟨"default", ""⟩ ["cert-a"] = none ∧
    (NewCmdRenew (fun _ _ => 60)
      (factoryOf "default"
        (staticStore [mkCertificate "default" "cert-a" [readyCondition ConditionTrue]]))
      ⟨"", "app=web"⟩ ["cert-a"] World.start).2 = World.start :=
  ⟨(Validate_iff ⟨"default", "app=web"⟩ ["cert-a"]).1.mpr (by decide),
   (Validate_iff ⟨"default", "app=web"⟩ []).2.1.mpr (by decide),
   (Validate_iff ⟨"default", ""⟩ ["cert-a"]).2.1.mpr (by decide),
   (Validate_iff ⟨"", "app=web"⟩ ["cert-a"]).2.2 (fun _ _ => 60)
      (factoryOf "default"
        (staticStore [mkCertificate "default" "cert-a" [readyCondition ConditionTrue]]))
      World.start (by decide)⟩

/-! ### The wait -/

theorem pollCondition_requests (cmClient : Clientset) (crt : Certificate) (w : World) :
    (pollCondition cmClient crt w).2.requests = w.requests ++ [pollRequest crt] := by
  unfold pollCondition Clientset.CertificatesGet World.Fprintf pollRequest
  simp only
  cases cmClient.get w.requests.length crt.Namespace crt.Namespace with
  | error e => rfl
  | ok c =>
    simp only
    split <;> rfl

theorem pollCondition_result (cmClient : Clientset) (crt : Certificate) (w : World) :
    (pollCondition cmClient crt w).1 =
      match pollRead cmClient crt w 0 with
      | .error e => (false, some e)
      | .ok c => if CertificateHasCondition c readyTrue then (true, none) else (false, none) := by
  unfold pollCondition Clientset.CertificatesGet World.Fprintf pollRead readyTrue
  simp only [Nat.add_zero]
  cases cmClient.get w.requests.length crt.Namespace crt.Namespace with
  | error e => rfl
  | ok c =>
    simp only
    split <;> rfl

theorem Poll_decisive (cmClient : Clientset) (crt : Certificate) (N : Nat) :
    ∀ (budget : Nat) (w : World), N < budget →
      (∀ k, k < N → decisive (pollRead cmClient crt w k) = false) →
      decisive (pollRead cmClient crt w N) = true →
      (Poll budget (pollCondition cmClient crt) w).2.requests =
          w.requests ++ List.replicate (N + 1) (pollRequest crt) ∧
        ((Poll budget (pollCondition cmClient crt) w).1 = none ↔
          observesReady (pollRead cmClient crt w N) = true) := by
  induction N with
  | zero =>
    intro budget w hb _ hat
    obtain ⟨b, rfl⟩ : ∃ b, budget = b + 1 := ⟨budget - 1, by omega⟩
    have hreq := pollCondition_requests cmClient crt w
    have hres := pollCondition_result cmClient crt w
    unfold Poll
    rcases hpc : pollCondition cmClient crt w with ⟨⟨ok, oe⟩, w1⟩
    rw [hpc] at hreq hres
    simp only at hreq hres
    cases hrd : pollRead cmClient crt w 0 with
    | error e =>
      rw [hrd] at hres
      simp only [Prod.mk.injEq] at hres
      obtain ⟨rfl, rfl⟩ := hres
      simp [hreq, observesReady]
    | ok c =>
      rw [hrd] at hres hat
      simp only [decisive] at hat
      simp only [hat, if_true, Prod.mk.injEq] at hres
      obtain ⟨rfl, rfl⟩ := hres
      simp [hreq, observesReady, hat]
  | succ n ih =>
    intro budget w hb hbefore hat
    obtain ⟨b, rfl⟩ : ∃ b, budget = b + 1 := ⟨budget - 1, by omega⟩
    have hreq := pollCondition_requests cmClient crt w
    have hres := pollCondition_result cmClient crt w
    have h0 := hbefore 0 (Nat.succ_pos n)
    unfold Poll
    rcases hpc : pollCondition cmClient crt w with ⟨⟨ok, oe⟩, w1⟩
    rw [hpc] at hreq hres
    simp only at hreq hres
    have hshift : ∀ k, pollRead cmClient crt w1 k = pollRead cmClient crt w (k + 1) := by
      intro k
      simp only [pollRead, hreq, List.length_append, List.length_singleton]
      congr 1
      omega
    cases hrd : pollRead cmClient crt w 0 with
    | error e =>
      rw [hrd] at h0
      simp [decisive] at h0
    | ok c =>
      rw [hrd] at hres h0
      simp only [decisive] at h0
      simp only [h0, Bool.false_eq_true, if_false, Prod.mk.injEq] at hres
      obtain ⟨rfl, rfl⟩ := hres
      simp only
      have hih := ih b w1 (by omega)
        (fun k hk => by rw [hshift]; exact hbefore (k + 1) (by omega))
        (by rw [hshift]; exact hat)
      rw [hshift] at hih
      refine ⟨?_, hih.2⟩
      rw [hih.1, hreq, List.append_assoc]
      rfl

/-- C5: for a certificate that passes the gate, let attempt `N` (counted from 0, within the
budget of the poller) be the first whose status read fails or shows Ready = True.  Then
`renewCertificate` sends exactly `N + 1` reads and nothing after them, it returns nil if and
only if that read showed Ready = True, and otherwise (the read failed) it returns the
wait failure. -/
theorem renewCertificate_wait (sched : Duration → Duration → Nat) (cmClient : Clientset)
    (crt : Certificate) (cond : CertificateCondition) (w : World) (N : Nat)
    (hgate : GetCertificateCondition crt CertificateConditionReady = some cond)
    (hst : cond.Status = ConditionTrue)
    (hN : N < sched pollInterval pollTimeout)
    (hbefore : ∀ k, k < N → decisive (pollRead cmClient crt w k) = false)
    (hat : decisive (pollRead cmClient crt w N) = true) :
    (renewCertificate sched cmClient crt w).2.requests =
        w.requests ++ List.replicate (N + 1) (pollRequest crt) ∧
      ((renewCertificate sched cmClient crt w).1 = Result.nil ↔
        observesReady (pollRead cmClient crt w N) = true) ∧
      (observesReady (pollRead cmClient crt w N) = false →
        (renewCertificate sched cmClient crt w).1 =
          Result.err (Error.Errorf "failed to wait for Certificate %s to become ready"
            [Arg.str crt.Name])) := by
  have hp := Poll_decisive cmClient crt N (sched pollInterval pollTimeout)
    (w.Fprintf ("Marking Certificate " ++ crt.Name ++ " for renewal")) hN hbefore hat
  have hw : (w.Fprintf ("Marking Certificate " ++ crt.Name ++ " for renewal")).requests =
      w.requests := rfl
  have hrd : pollRead cmClient crt
      (w.Fprintf ("Marking Certificate " ++ crt.Name ++ " for renewal")) N =
      pollRead cmClient crt w N := rfl
  rw [hw, hrd] at hp
  unfold renewCertificate
  simp only [hgate, hst, ne_eq, not_true_eq_false, if_false]
  rcases hpoll : Poll (sched pollInterval pollTimeout) (pollCondition cmClient crt)
      (w.Fprintf ("Marking Certificate " ++ crt.Name ++ " for renewal")) with ⟨oe, w2⟩
  rw [hpoll] at hp
  simp only at hp
  cases oe with
  | none =>
    have hobs := hp.2.mp rfl
    refine ⟨hp.1, ?_, ?_⟩
    · simp [hobs]
    · intro h
      rw [hobs] at h
      cases h
  | some e =>
    have hobs : observesReady (pollRead cmClient crt w N) = false := by
      cases h : observesReady (pollRead cmClient crt w N) with
      | false => rfl
      | true => exact absurd (hp.2.mpr h) (by simp)
    refine ⟨hp.1, ?_, ?_⟩
    · simp [hobs]
    · intro _
      rfl

theorem getEach_length (cmClient : Clientset) (o : Options) :
    ∀ (args : List String) (acc : List Certificate) (w : World) (l : List Certificate),
      (getEach cmClient o args acc w).1 = Except.ok l → l.length = acc.length + args.length := by
  intro args
  induction args with
  | nil =>
    intro acc w l h
    simp only [getEach] at h
    cases h
    rfl
  | cons n rest ih =>
    intro acc w l h
    unfold getEach Clientset.CertificatesGet at h
    cases hg : cmClient.get w.requests.length o.Namespace n with
    | error e =>
      rw [hg] at h
      cases h
    | ok c =>
      rw [hg] at h
      have hlen := ih (acc ++ [c])
        { w with requests := w.requests ++ [⟨Verb.Get, o.Namespace, n⟩] } l h
      simp only [List.length_append, List.length_singleton, List.length_cons,
        List.length_nil] at hlen ⊢
      omega

/-- C8: whenever the resolved certificate set is empty (the label query matched nothing, or
there is neither a selector nor a name), `Run` returns the error "No resources found", never
nil; nothing was written, so no certificate was gated or polled, and the only request that can
have been sent is the `List` of the label query. -/
theorem Run_no_resources (sched : Duration → Duration → Nat) (f : Factory)
    (cmClient : Clientset) (o : Options) (args : List String) (w : World)
    (hcfg : f.ToRESTConfig = Except.ok ()) (hcl : f.NewForConfig = Except.ok cmClient)
    (hempty : (resolve cmClient o args w).1 = Except.ok []) :
    (Run sched f o args w).1 = Result.err (Error.New "No resources found") ∧
      (Run sched f o args w).2.Out = w.Out ∧
      ((o.LabelSelector = "" ∧ args = [] ∧ (Run sched f o args w).2.requests = w.requests) ∨
        (o.LabelSelector ≠ "" ∧
          cmClient.list w.requests.length o.Namespace o.LabelSelector = Except.ok [] ∧
          (Run sched f o args w).2.requests =
            w.requests ++ [⟨Verb.List, o.Namespace, o.LabelSelector⟩])) := by
  unfold Run
  simp only [hcfg, hcl]
  rcases hres : resolve cmClient o args w with ⟨r, w1⟩
  rw [hres] at hempty
  simp only at hempty
  subst hempty
  simp only [List.length_nil, if_true, true_and]
  unfold resolve at hres
  by_cases hsel : o.LabelSelector.utf8ByteSize > 0
  · have hne : o.LabelSelector ≠ "" := (utf8ByteSize_pos_iff _).mp hsel
    rw [if_pos hsel] at hres
    unfold Clientset.CertificatesList at hres
    cases hl : cmClient.list w.requests.length o.Namespace o.LabelSelector with
    | error e =>
      rw [hl] at hres
      cases hres
    | ok l =>
      rw [hl] at hres
      simp only [Prod.mk.injEq, Except.ok.injEq] at hres
      obtain ⟨rfl, rfl⟩ := hres
      exact ⟨rfl, Or.inr ⟨hne, rfl, rfl⟩⟩
  · have heq : o.LabelSelector = "" := by
      by_contra hne
      exact hsel ((utf8ByteSize_pos_iff _).mpr hne)
    rw [if_neg hsel] at hres
    have hlen := getEach_length cmClient o args [] w [] (by rw [hres])
    have hargs : args = [] := by
      cases args with
      | nil => rfl
      | cons a t => simp at hlen
    subst hargs
    simp only [getEach, Prod.mk.injEq, true_and] at hres
    subst hres
    exact ⟨rfl, Or.inl ⟨heq, rfl, rfl⟩⟩

/-- Witness of C8: a label query that matches nothing in an empty store. -/
theorem Run_no_resources_witness :
    (Run (fun _ _ => 60) (factoryOf "default" (staticStore [])) ⟨"default", "app=web"⟩ []
        World.start).1 = Result.err (Error.New "No resources found") :=
  (Run_no_resources (fun _ _ => 60) (factoryOf "default" (staticStore [])) (staticStore [])
    ⟨"default", "app=web"⟩ [] World.start rfl rfl rfl).1

/-- Witness of C5: the polled certificate turns Ready at the third read; the wait makes three
reads and `renewCertificate` returns nil. -/
theorem renewCertificate_wait_witness :
    (renewCertificate (fun _ _ => 60) (readyFrom 2)
        (mkCertificate "default" "cert-a" [readyCondition ConditionTrue]) World.start).2.requests =
        [⟨Verb.Get, "default", "default"⟩, ⟨Verb.Get, "default", "default"⟩,
          ⟨Verb.Get, "default", "default"⟩] ∧
      (renewCertificate (fun _ _ => 60) (readyFrom 2)
        (mkCertificate "default" "cert-a" [readyCondition ConditionTrue]) World.start).1 =
        Result.nil :=
  ⟨(renewCertificate_wait (fun _ _ => 60) (readyFrom 2)
      (mkCertificate "default" "cert-a" [readyCondition ConditionTrue])
      (readyCondition ConditionTrue) World.start 2 rfl rfl (by decide) (by decide)
      (by decide)).1,
   (renewCertificate_wait (fun _ _ => 60) (readyFrom 2)
      (mkCertificate "default" "cert-a" [readyCondition ConditionTrue])
      (readyCondition ConditionTrue) World.start 2 rfl rfl (by decide) (by decide)
      (by decide)).2.1.mpr (by decide)⟩

/-! ### The two loops of `Run` -/

theorem renewEach_cons (sched : Duration → Duration → Nat) (cmClient : Clientset)
    (crt : Certificate) (rest : List Certificate) (w : World) :
    renewEach sched cmClient (crt :: rest) w =
      match renewCertificate sched cmClient crt w with
      | (Result.nil, w1) => renewEach sched cmClient rest w1
      | (r, w1) => (r, w1) := by
  rw [renewEach]

theorem renewEach_append (sched : Duration → Duration → Nat) (cmClient : Clientset)
    (pre rest : List Certificate) :
    ∀ (w w2 : World), renewEach sched cmClient pre w = (Result.nil, w2) →
      renewEach sched cmClient (pre ++ rest) w = renewEach sched cmClient rest w2 := by
  induction pre with
  | nil =>
    intro w w2 h
    simp only [renewEach, Prod.mk.injEq, true_and] at h
    subst h
    rfl
  | cons p pre ih =>
    intro w w2 h
    rw [List.cons_append, renewEach_cons]
    rw [renewEach_cons] at h
    rcases hr : renewCertificate sched cmClient p w with ⟨r, w1⟩
    rw [hr] at h
    cases r with
    | nil =>
      simp only at h ⊢
      exact ih w1 w2 h
    | err e =>
      simp only [Prod.mk.injEq] at h
      exact absurd h.1 (by simp)
    | panic m =>
      simp only [Prod.mk.injEq] at h
      exact absurd h.1 (by simp)

theorem renewEach_fails_first (sched : Duration → Duration → Nat) (cmClient : Clientset)
    (crt : Certificate) (post : List Certificate) (w w3 : World) (r : Result)
    (h : renewCertificate sched cmClient crt w = (r, w3)) (hr : r ≠ Result.nil) :
    renewEach sched cmClient (crt :: post) w = (r, w3) := by
  rw [renewEach_cons, h]
  cases r with
  | nil => exact absurd rfl hr
  | err e => rfl
  | panic m => rfl

theorem pollCondition_out (cmClient : Clientset) (crt : Certificate) (w : World) :
    ∀ line, line ∈ w.Out → line ∈ (pollCondition cmClient crt w).2.Out := by
  intro line hl
  unfold pollCondition Clientset.CertificatesGet World.Fprintf
  simp only
  cases cmClient.get w.requests.length crt.Namespace crt.Namespace with
  | error e => exact List.mem_append_left _ hl
  | ok c =>
    simp only
    split <;> exact List.mem_append_left _ hl

theorem Poll_out (cmClient : Clientset) (crt : Certificate) (budget : Nat) :
    ∀ (w : World) line, line ∈ w.Out →
      line ∈ (Poll budget (pollCondition cmClient crt) w).2.Out := by
  induction budget with
  | zero =>
    intro w line hl
    exact hl
  | succ b ih =>
    intro w line hl
    have hpc := pollCondition_out cmClient crt w line hl
    unfold Poll
    rcases hc : pollCondition cmClient crt w with ⟨⟨ok, oe⟩, w1⟩
    rw [hc] at hpc
    cases ok with
    | true =>
      cases oe with
      | some e => exact hpc
      | none => exact hpc
    | false =>
      cases oe with
      | some e => exact hpc
      | none => exact ih w1 line hpc

theorem renewCertificate_out (sched : Duration → Duration → Nat) (cmClient : Clientset)
    (crt : Certificate) (w : World) :
    (∀ line, line ∈ w.Out → line ∈ (renewCertificate sched cmClient crt w).2.Out) ∧
      ((renewCertificate sched cmClient crt w).1 = Result.nil →
        readyLine crt.Name ∈ (renewCertificate sched cmClient crt w).2.Out) := by
  unfold renewCertificate
  cases GetCertificateCondition crt CertificateConditionReady with
  | none => exact ⟨fun _ h => h, fun h => by cases h⟩
  | some cond =>
    simp only
    by_cases hst : cond.Status ≠ ConditionTrue
    · rw [if_pos hst]
      exact ⟨fun _ h => h, fun h => by cases h⟩
    · rw [if_neg hst]
      have hp := Poll_out cmClient crt (sched pollInterval pollTimeout)
        (w.Fprintf ("Marking Certificate " ++ crt.Name ++ " for renewal"))
      rcases hpoll : Poll (sched pollInterval pollTimeout) (pollCondition cmClient crt)
        (w.Fprintf ("Marking Certificate " ++ crt.Name ++ " for renewal")) with ⟨oe, w2⟩
      rw [hpoll] at hp
      have hmono : ∀ line, line ∈ w.Out → line ∈ w2.Out := fun line hl =>
        hp line (List.mem_append_left _ hl)
      cases oe with
      | some e => exact ⟨hmono, fun h => by cases h⟩
      | none =>
        refine ⟨fun line hl => List.mem_append_left _ (hmono line hl), fun _ => ?_⟩
        exact List.mem_append_right _ (List.mem_singleton_self _)

theorem renewEach_out (sched : Duration → Duration → Nat) (cmClient : Clientset)
    (pre : List Certificate) :
    ∀ (w w2 : World), renewEach sched cmClient pre w = (Result.nil, w2) →
      (∀ line, line ∈ w.Out → line ∈ w2.Out) ∧
        ∀ p, p ∈ pre → readyLine p.Name ∈ w2.Out := by
  induction pre with
  | nil =>
    intro w w2 h
    simp only [renewEach, Prod.mk.injEq, true_and] at h
    subst h
    exact ⟨fun _ hl => hl, fun p hp => by cases hp⟩
  | cons q pre ih =>
    intro w w2 h
    have hout := renewCertificate_out sched cmClient q w
    rw [renewEach_cons] at h
    rcases hr : renewCertificate sched cmClient q w with ⟨r, w1⟩
    rw [hr] at h hout
    cases r with
    | nil =>
      simp only at h hout
      obtain ⟨hmono, hall⟩ := ih w1 w2 h
      refine ⟨fun line hl => hmono line (hout.1 line hl), fun p hp => ?_⟩
      rcases List.mem_cons.mp hp with hpq | hpp
      · subst hpq
        exact hmono _ (hout.2 trivial)
      · exact hall p hpp
    | err e =>
      simp only [Prod.mk.injEq] at h
      exact absurd h.1 (by simp)
    | panic m =>
      simp only [Prod.mk.injEq] at h
      exact absurd h.1 (by simp)

theorem getEach_cons (cmClient : Clientset) (o : Options) (crtName : String)
    (rest : List String) (crts : List Certificate) (w : World) :
    getEach cmClient o (crtName :: rest) crts w =
      match cmClient.CertificatesGet o.Namespace crtName w with
      | (.error e, w1) => (.error e, w1)
      | (.ok crt, w1) => getEach cmClient o rest (crts ++ [crt]) w1 := by
  rw [getEach]

theorem getEach_fails_first (cmClient : Clientset) (o : Options) (n : String)
    (post : List String) (e : Error) (pre : List String) :
    ∀ (acc : List Certificate) (w : World),
      (∀ k (hk : k < pre.length), ∃ c,
        cmClient.get (w.requests.length + k) o.Namespace (pre.get ⟨k, hk⟩) = Except.ok c) →
      cmClient.get (w.requests.length + pre.length) o.Namespace n = Except.error e →
      getEach cmClient o (pre ++ n :: post) acc w =
        (Except.error e,
          ⟨w.requests ++ (pre ++ [n]).map (getRequest o.Namespace), w.Out⟩) := by
  induction pre with
  | nil =>
    intro acc w _ hn
    simp only [List.length_nil, Nat.add_zero] at hn
    simp only [List.nil_append, getEach, Clientset.CertificatesGet, hn, List.map_cons,
      List.map_nil, getRequest]
  | cons a pre ih =>
    intro acc w hpre hn
    obtain ⟨c, hc⟩ := hpre 0 (by simp)
    simp only [Nat.add_zero, List.get_eq_getElem, List.getElem_cons_zero] at hc
    rw [List.cons_append, getEach_cons]
    simp only [Clientset.CertificatesGet, hc]
    have hlen : (w.requests ++ [(⟨Verb.Get, o.Namespace, a⟩ : Request)]).length =
        w.requests.length + 1 := by simp
    rw [ih (acc ++ [c]) ⟨w.requests ++ [(⟨Verb.Get, o.Namespace, a⟩ : Request)], w.Out⟩
      (fun k hk => by
        have h := hpre (k + 1) (by simp only [List.length_cons]; omega)
        simp only [List.get_eq_getElem, List.getElem_cons_succ] at h
        simp only [hlen, List.get_eq_getElem]
        rw [Nat.add_assoc, Nat.add_comm 1 k]
        exact h)
      (by
        simp only [hlen]
        rw [Nat.add_assoc, Nat.add_comm 1 pre.length]
        simpa using hn)]
    simp only [List.map_append, List.map_cons, List.map_nil, List.append_assoc,
      List.singleton_append, getRequest, List.cons_append, List.nil_append]

/-- C7, as amended: `Run` is fail-fast in two phases.  Resolution comes first: when the `List`
call fails, or the `Get` of a name fails after the `Get` of every name before it succeeded, `Run`
returns that error, having sent no request after the failing one and written nothing, so that no
certificate is gated or polled.  Renewal comes second, in resolved order: when
`renewCertificate` fails on a certificate after returning nil on every one before it, `Run`
returns that failure in the world that `renewCertificate` left, so that no later certificate is
gated or polled, and the ready line of every earlier certificate has been written. -/
theorem Run_fail_fast (sched : Duration → Duration → Nat) (f : Factory) (cmClient : Clientset)
    (o : Options) (args : List String) (w : World)
    (hcfg : f.ToRESTConfig = Except.ok ()) (hcl : f.NewForConfig = Except.ok cmClient) :
    (∀ e, o.LabelSelector ≠ "" →
        cmClient.list w.requests.length o.Namespace o.LabelSelector = Except.error e →
        Run sched f o args w =
          (Result.err e, ⟨w.requests ++ [listRequest o.Namespace o.LabelSelector], w.Out⟩)) ∧
    (∀ pre n post e, o.LabelSelector = "" → args = pre ++ n :: post →
        (∀ k (hk : k < pre.length), ∃ c,
          cmClient.get (w.requests.length + k) o.Namespace (pre.get ⟨k, hk⟩) = Except.ok c) →
        cmClient.get (w.requests.length + pre.length) o.Namespace n = Except.error e →
        Run sched f o args w =
          (Result.err e, ⟨w.requests ++ (pre ++ [n]).map (getRequest o.Namespace), w.Out⟩)) ∧
    (∀ pre crt post w1 w2 w3 r,
        resolve cmClient o args w = (Except.ok (pre ++ crt :: post), w1) →
        renewEach sched cmClient pre w1 = (Result.nil, w2) →
        renewCertificate sched cmClient crt w2 = (r, w3) → r ≠ Result.nil →
        Run sched f o args w = (r, w3) ∧ ∀ p, p ∈ pre → readyLine p.Name ∈ w3.Out) := by
  refine ⟨?_, ?_, ?_⟩
  · intro e hsel hl
    have hpos : o.LabelSelector.utf8ByteSize > 0 := (utf8ByteSize_pos_iff _).mpr hsel
    unfold Run
    simp only [hcfg, hcl, resolve, if_pos hpos, Clientset.CertificatesList, hl, listRequest]
  · intro pre n post e hsel hargs hpre hn
    have hpos : ¬ o.LabelSelector.utf8ByteSize > 0 := by
      rw [utf8ByteSize_pos_iff]
      exact fun h => h hsel
    have hget := getEach_fails_first cmClient o n post e pre [] w hpre hn
    unfold Run
    simp only [hcfg, hcl, resolve, if_neg hpos, hargs, hget]
  · intro pre crt post w1 w2 w3 r hres hpre hcrt hr
    have hne : (pre ++ crt :: post).length ≠ 0 := by simp
    have hrun : Run sched f o args w = (r, w3) := by
      unfold Run
      simp only [hcfg, hcl, hres, if_neg hne]
      rw [renewEach_append sched cmClient pre (crt :: post) w1 w2 hpre]
      exact renewEach_fails_first sched cmClient crt post w2 w3 r hcrt hr
    refine ⟨hrun, fun p hp => ?_⟩
    have hout := renewCertificate_out sched cmClient crt w2
    rw [hcrt] at hout
    exact hout.1 _ ((renewEach_out sched cmClient pre w1 w2 hpre).2 p hp)

/-- Witness of the amended C7: a label query resolving to "cert-b" (Ready) and "cert-c" (not
Ready).  "cert-b" is renewed and confirmed, then `Run` fails on "cert-c" at the gate: the
request log holds the `List` and the single read of the wait for "cert-b". -/
theorem Run_fail_fast_witness :
    Run (fun _ _ => 60) (factoryOf "default" labelStore) ⟨"default", "app=web"⟩ [] World.start =
        (Result.err (Error.Errorf "Certificate %s not in ready condition: %v"
          [Arg.str "cert-c", Arg.cond (readyCondition ConditionFalse)]),
         ⟨[listRequest "default" "app=web", getRequest "default" "default"],
          ["Marking Certificate cert-b for renewal", "Waiting for Certificate cert-b to renew",
           "Certificate cert-b is ready"]⟩) ∧
      ∀ p, p ∈ [mkCertificate "default" "cert-b" [readyCondition ConditionTrue]] →
        readyLine p.Name ∈
          ["Marking Certificate cert-b for renewal", "Waiting for Certificate cert-b to renew",
           "Certificate cert-b is ready"] :=
  (Run_fail_fast (fun _ _ => 60) (factoryOf "default" labelStore) labelStore
    ⟨"default", "app=web"⟩ [] World.start rfl rfl).2.2
    [mkCertificate "default" "cert-b" [readyCondition ConditionTrue]]
    (mkCertificate "default" "cert-c" [readyCondition ConditionFalse]) []
    ⟨[listRequest "default" "app=web"], []⟩
    ⟨[listRequest "default" "app=web", getRequest "default" "default"],
      ["Marking Certificate cert-b for renewal", "Waiting for Certificate cert-b to renew",
       "Certificate cert-b is ready"]⟩
    ⟨[listRequest "default" "app=web", getRequest "default" "default"],
      ["Marking Certificate cert-b for renewal", "Waiting for Certificate cert-b to renew",
       "Certificate cert-b is ready"]⟩
    (Result.err (Error.Errorf "Certificate %s not in ready condition: %v"
      [Arg.str "cert-c", Arg.cond (readyCondition ConditionFalse)]))
    rfl (by decide) (by decide) (by decide)

/-- C7 as stated fails: with the names "cert-a" (present and Ready) and "cert-d" (missing), the
first failing step is the `Get` of "cert-d" and `Run` returns its error, yet "cert-a", which
comes before it, has been neither gated nor confirmed: nothing at all was written.  In the same
store `Run` on "cert-a" alone returns nil and writes its ready line. -/
theorem Run_stops_before_renewing :
    Run (fun _ _ => 60) (factoryOf "default" (staticStore [certA, certDefault])) ⟨"default", ""⟩
        ["cert-a", "cert-d"] World.start =
        (Result.err (notFound "cert-d"),
         ⟨[getRequest "default" "cert-a", getRequest "default" "cert-d"], []⟩) ∧
      readyLine "cert-a" ∉
        (Run (fun _ _ => 60) (factoryOf "default" (staticStore [certA, certDefault]))
          ⟨"default", ""⟩ ["cert-a", "cert-d"] World.start).2.Out ∧
      (Run (fun _ _ => 60) (factoryOf "default" (staticStore [certA, certDefault]))
          ⟨"default", ""⟩ ["cert-a"] World.start).1 = Result.nil ∧
      readyLine "cert-a" ∈
        (Run (fun _ _ => 60) (factoryOf "default" (staticStore [certA, certDefault]))
          ⟨"default", ""⟩ ["cert-a"] World.start).2.Out := by
  decide

/-- C3 at its own example: "cert-a" exists in namespace "default" and is Ready at every read,
yet `Run` with the name list ["cert-a"] returns the wait failure.  The wait does not read
"cert-a" again: its request is a `Get` of the name "default" in namespace "default", which the
store answers with not-found. -/
theorem Run_cert_a_rereads_namespace :
    Run (fun _ _ => 60) (factoryOf "default" (staticStore [certA])) ⟨"default", ""⟩ ["cert-a"]
        World.start =
      (Result.err (waitFailed "cert-a"),
       ⟨[getRequest "default" "cert-a", getRequest "default" "default"],
        ["Marking Certificate cert-a for renewal", "Waiting for Certificate cert-a to renew"]⟩) := by
  decide

/-- C4 at a certificate that passes the gate: `renewCertificate` returns nil after the wait, and
of the requests it sent none is mutating; the only request is the read of the wait. -/
theorem renewCertificate_sends_no_write :
    renewCertificate (fun _ _ => 60) labelStore certA World.start =
        (Result.nil,
         ⟨[getRequest "default" "default"],
          ["Marking Certificate cert-a for renewal", "Waiting for Certificate cert-a to renew",
           "Certificate cert-a is ready"]⟩) ∧
      ((renewCertificate (fun _ _ => 60) labelStore certA World.start).2.requests.filter
        Request.isMutating).length = 0 := by
  decide

/-- C9 at a certificate with an empty condition list: the gate of `renewCertificate` does not
return an error, it dereferences the nil result of the lookup and panics. -/
theorem renewCertificate_no_ready_condition :
    renewCertificate (fun _ _ => 60) (staticStore []) (mkCertificate "default" "cert-e" [])
        World.start =
      (Result.panic "invalid memory address or nil pointer dereference", World.start) := by
  decide

/-- C10 at a failing read: when the first status read of the wait fails with the not-found error
of the store, `renewCertificate` returns the same error value as when every read succeeds and
the wait times out; the error of the read is not part of it. -/
theorem renewCertificate_drops_read_error :
    (pollCondition (staticStore []) certA World.start).1 = (false, some (notFound "default")) ∧
      (renewCertificate (fun _ _ => 5) (staticStore []) certA World.start).1 =
        Result.err (waitFailed "cert-a") ∧
      (renewCertificate (fun _ _ => 5) (readyFrom 100) certA World.start).1 =
        Result.err (waitFailed "cert-a") ∧
      ((renewCertificate (fun _ _ => 5) (readyFrom 100) certA World.start).2.requests.length = 5) := by
  decide

/-! ### A wait that never sees Ready -/

theorem Poll_never (cmClient : Clientset) (crt : Certificate) (budget : Nat) :
    ∀ (w : World), (∀ k, decisive (pollRead cmClient crt w k) = false) →
      (Poll budget (pollCondition cmClient crt) w).1 = some Error.ErrWaitTimeout ∧
        (Poll budget (pollCondition cmClient crt) w).2.requests =
          w.requests ++ List.replicate budget (pollRequest crt) := by
  induction budget with
  | zero =>
    intro w _
    simp [Poll]
  | succ b ih =>
    intro w hnever
    have hreq := pollCondition_requests cmClient crt w
    have hres := pollCondition_result cmClient crt w
    have h0 := hnever 0
    unfold Poll
    rcases hpc : pollCondition cmClient crt w with ⟨⟨ok, oe⟩, w1⟩
    rw [hpc] at hreq hres
    simp only at hreq hres
    have hshift : ∀ k, pollRead cmClient crt w1 k = pollRead cmClient crt w (k + 1) := by
      intro k
      simp only [pollRead, hreq, List.length_append, List.length_singleton]
      congr 1
      omega
    cases hrd : pollRead cmClient crt w 0 with
    | error e =>
      rw [hrd] at h0
      simp [decisive] at h0
    | ok c =>
      rw [hrd] at hres h0
      simp only [decisive] at h0
      simp only [h0, Bool.false_eq_true, if_false, Prod.mk.injEq] at hres
      obtain ⟨rfl, rfl⟩ := hres
      simp only
      have hih := ih w1 (fun k => by rw [hshift]; exact hnever (k + 1))
      refine ⟨hih.1, ?_⟩
      rw [hih.2, hreq, List.append_assoc]
      rfl

/-- C6, as amended: for a certificate that passes the gate and is never observed Ready while
every status read succeeds, `renewCertificate` returns the wait failure, which names the
certificate; with `interval` and `timeout` the values of `pollInterval` and `pollTimeout` that
`wait.Poll` is run with (the interval positive), it sends `timeout / interval + 1` reads and
nothing else, a number between `timeout / interval - 1` and `timeout / interval + 1`, and that
many intervals exceed the timeout.  The variables default to one second and one minute. -/
theorem renewCertificate_never_ready (sched : Duration → Duration → Nat) (cmClient : Clientset)
    (crt : Certificate) (cond : CertificateCondition) (w : World) (interval timeout : Duration)
    (hgate : GetCertificateCondition crt CertificateConditionReady = some cond)
    (hst : cond.Status = ConditionTrue)
    (hpos : 0 < interval)
    (hsched : sched pollInterval pollTimeout = pollerRuns interval timeout)
    (hnever : ∀ k, decisive (pollRead cmClient crt w k) = false) :
    (renewCertificate sched cmClient crt w).1 =
        Result.err (Error.Errorf "failed to wait for Certificate %s to become ready"
          [Arg.str crt.Name]) ∧
      (renewCertificate sched cmClient crt w).2.requests =
        w.requests ++ List.replicate (timeout / interval + 1) (pollRequest crt) ∧
      (renewCertificate sched cmClient crt w).2.requests.length - w.requests.length =
        timeout / interval + 1 ∧
      timeout / interval - 1 ≤
        (renewCertificate sched cmClient crt w).2.requests.length - w.requests.length ∧
      (renewCertificate sched cmClient crt w).2.requests.length - w.requests.length ≤
        timeout / interval + 1 ∧
      timeout <
        interval * ((renewCertificate sched cmClient crt w).2.requests.length -
          w.requests.length) ∧
      pollInterval = 1000000000 ∧ pollTimeout = 60 * 1000000000 := by
  have hp := Poll_never cmClient crt (sched pollInterval pollTimeout)
    (w.Fprintf ("Marking Certificate " ++ crt.Name ++ " for renewal")) hnever
  have hw : (w.Fprintf ("Marking Certificate " ++ crt.Name ++ " for renewal")).requests =
      w.requests := rfl
  rw [hw, hsched] at hp
  have hres : (renewCertificate sched cmClient crt w).1 =
        Result.err (Error.Errorf "failed to wait for Certificate %s to become ready"
          [Arg.str crt.Name]) ∧
      (renewCertificate sched cmClient crt w).2.requests =
        w.requests ++ List.replicate (timeout / interval + 1) (pollRequest crt) := by
    unfold renewCertificate
    simp only [hgate, hst, ne_eq, not_true_eq_false, if_false, hsched]
    rcases hpoll : Poll (pollerRuns interval timeout) (pollCondition cmClient crt)
        (w.Fprintf ("Marking Certificate " ++ crt.Name ++ " for renewal")) with ⟨oe, w2⟩
    rw [hpoll] at hp
    simp only at hp
    obtain ⟨hoe, hreq⟩ := hp
    subst hoe
    exact ⟨rfl, hreq⟩
  have hlen : (renewCertificate sched cmClient crt w).2.requests.length - w.requests.length =
      timeout / interval + 1 := by
    rw [hres.2, List.length_append, List.length_replicate]
    exact Nat.add_sub_cancel_left w.requests.length (timeout / interval + 1)
  refine ⟨hres.1, hres.2, hlen, ?_, ?_, ?_, rfl, rfl⟩
  · rw [hlen]
    exact Nat.le_trans (Nat.sub_le _ _) (Nat.le_succ _)
  · rw [hlen]
  · rw [hlen]
    exact Nat.lt_mul_div_succ timeout hpos

/-- Witness of the amended C6: with an interval of one second and a timeout of five seconds, a
certificate that is never Ready makes `renewCertificate` fail after six reads. -/
theorem renewCertificate_never_ready_witness :
    (renewCertificate (fun _ _ => pollerRuns 1000000000 5000000000) neverReady certA
        World.start).1 = Result.err (waitFailed "cert-a") ∧
      (renewCertificate (fun _ _ => pollerRuns 1000000000 5000000000) neverReady certA
        World.start).2.requests = List.replicate 6 (getRequest "default" "default") :=
  ⟨(renewCertificate_never_ready (fun _ _ => pollerRuns 1000000000 5000000000) neverReady certA
      (readyCondition ConditionTrue) World.start 1000000000 5000000000 rfl rfl (by decide) rfl
      (fun _ => rfl)).1,
   (renewCertificate_never_ready (fun _ _ => pollerRuns 1000000000 5000000000) neverReady certA
      (readyCondition ConditionTrue) World.start 1000000000 5000000000 rfl rfl (by decide) rfl
      (fun _ => rfl)).2.1⟩

/-- C6 as stated fails at its own example: with an interval of one second and a timeout of five
seconds the wait for a certificate that is never Ready makes six attempts, not five: five reads
at the ticks and the last one when the timeout fires. -/
theorem renewCertificate_six_attempts :
    (renewCertificate (fun _ _ => pollerRuns 1000000000 5000000000) neverReady certA
        World.start).2.requests.length = 6 ∧
      (renewCertificate (fun _ _ => pollerRuns 1000000000 5000000000) neverReady certA
        World.start).2.requests.length ≠ 5 := by
  decide

end Renew
